import Mathlib

/-!
Verification of the stochastic-block-model inference core (graph-tool's
`graph_blockmodel.hh`, `int_part.hh`, `util.hh`) against its natural-language
specification.  The C++ state is shallowly embedded: machine doubles whose
values come from transcendental functions are modelled over `ℝ` (or are kept
as abstract function parameters when only control flow matters), machine
integers are modelled as `Int`/`Nat`, the per-block counters become Lean
functions and lists, and the hierarchy of coupled states becomes an explicit
list of per-level partition records.
-/

namespace SBM

/-! ## Numeric primitives (`util.hh`, `int_part.hh`) -/

/-- Number of partitions of `n` into at most `k` parts.  This is the exact
restricted-partition count `q(n, k)` computed by the recurrence used by
`q_rec` in `int_part.hh` (declared there; its definition lives outside the
given sources).  Modelled from the spec: the q-cache is "a
restricted-integer-partition table `log q(n,k)`". -/
def q_rec : Nat → Nat → Nat
  | 0, _ => 1
  | _ + 1, 0 => 0
  | n + 1, k + 1 =>
      q_rec (n + 1) k + (if k + 1 ≤ n + 1 then q_rec (n + 1 - (k + 1)) (k + 1) else 0)
termination_by n k => (n, k)
decreasing_by
  · exact Prod.Lex.right (n + 1) (Nat.lt_succ_self k)
  · exact Prod.Lex.left _ _ (by omega)

/-- Modelled from the spec: the fallback of `log_q` for arguments beyond the
cache is "the exact formula" for `log q(n, k)` (the body of `log_q_approx`
in `int_part.cc` is not among the given sources).  We model it as the real
logarithm of the exact restricted-partition count. -/
noncomputable def log_q_approx (n k : Nat) : ℝ :=
  Real.log (q_rec n k)

/-- The q-cache: the first dimension of `__q_cache` (its shape bound) plus the
table of stored values. -/
structure QCache where
  bound : Nat
  table : Nat → Nat → ℝ

/-- Modelled from the spec: `init_q_cache(n_max)` (body in `int_part.cc`, not
among the given sources) fills the cache with the restricted-integer-partition
table `log q(n, k)` once, before inference. -/
noncomputable def init_q_cache (n_max : Nat) : QCache :=
  ⟨n_max, fun n k => Real.log (q_rec n k)⟩

/-- Shallow embedding of `log_q` from `int_part.hh` (lines 39-50): clamp
`k` to `n`, serve small `n` from the cache, otherwise fall back to
`log_q_approx`.  The C++ function is `[[gnu::const]]`: it performs no store,
which the embedding reflects by being a pure function of `(qc, n, k)`. -/
noncomputable def log_q (qc : QCache) (n k : Int) : ℝ :=
  if n ≤ 0 ∨ k < 1 then 0
  else
    let k' := if k > n then n else k
    if n.toNat < qc.bound then qc.table n.toNat k'.toNat
    else log_q_approx n.toNat k'.toNat

/-- Shallow embedding of `lbinom` (`util.hh` lines 31-38).  The call to
`std::lgamma` is kept as an abstract real-valued function parameter `lg`;
the guard is translated verbatim. -/
noncomputable def lbinom (lg : Int → ℝ) (N k : Int) : ℝ :=
  if N = 0 ∨ k = 0 ∨ k ≥ N then 0
  else (lg (N + 1) - lg (k + 1)) - lg ((N - k) + 1)

/-- Shallow embedding of `lbinom_fast` (`util.hh` lines 40-47), with the
cached `lgamma_fast` abstracted as `lgf`. -/
noncomputable def lbinom_fast (lgf : Int → ℝ) (N k : Int) : ℝ :=
  if N = 0 ∨ k = 0 ∨ k ≥ N then 0
  else (lgf (N + 1) - lgf (k + 1)) - lgf ((N - k) + 1)

/-- Shallow embedding of `lbinom_careful` (`util.hh` lines 49-68), with
`std::lgamma`, `std::log1p` and `std::log` abstracted as function
parameters. -/
noncomputable def lbinom_careful (lg : Int → ℝ) (log1p : ℝ → ℝ) (log : ℝ → ℝ) (N k : Int) : ℝ :=
  if N = 0 ∨ k = 0 ∨ k ≥ N then 0
  else
    let lgN := lg (N + 1)
    let lgk := lg (k + 1)
    if lgN - lgk > 100000000 then
      -(N : ℝ) * log1p (-(k : ℝ) / (N : ℝ)) - (k : ℝ) * log1p (-(k : ℝ) / (N : ℝ))
        - (k : ℝ) - lgk + (k : ℝ) * log (N : ℝ)
    else lgN - lg (N - k + 1) - lgk

/-! ## The block-model state

The authoritative `BlockState` of `graph_blockmodel.hh` is embedded as
follows.  The graph is a directed multigraph given by a list of edges with
integer `eweight` and (one channel of) real covariates `rec`/`drec`,
modelled over `ℚ`.  The partition-side counters that the hierarchy of
coupled states shares (`b`, `vweight`, `wr`, `bclabel`, `N`, the
`empty_groups`/`candidate_groups` sets) form a `PLevel`; the coupled-state
chain is the list of the `PLevel`s of the higher levels (spec 9: "the
coupled-state chain is a linked list of states").  The edge-side counters
(`mrs`, `mrp`, `mrm`, `brec`, `bdrec`), the degree histogram of the
partition statistics, and the reusable `_m_entries` scratch buffer live in
`State`. -/

/-- One directed edge of the underlying graph, with its integer weight
(`_eweight[e]`) and one channel of covariates (`_rec[i][e]`, `_drec[i][e]`,
modelled over `ℚ`). -/
structure Edge where
  src : Nat
  tgt : Nat
  w : Int
  erec : ℚ
  edrec : ℚ
deriving DecidableEq

/-- The partition-side fields of one level of the (possibly coupled)
block-state hierarchy: the assignment `b`, the vertex weights `_vweight`,
the block weights `_wr`, the constraint labels `_bclabel`, the total weight
`_N`, and the `_empty_groups` / `_candidate_groups` sets. -/
@[ext]
structure PLevel where
  b : List Nat
  vweight : List Int
  wr : List Int
  bclabel : List Int
  N : Int
  empty : Finset Nat
  candidate : Finset Nat
deriving DecidableEq

/-- Shallow embedding of `BlockState::set_vertex_weight` (lines 817-833):
`_N -= vweight[v]; vweight[v] = w; _N += w`. -/
def set_vertex_weight (l : PLevel) (v : Nat) (w : Int) : PLevel :=
  { l with N := l.N - l.vweight.getD v 0 + w, vweight := l.vweight.set v w }

/-- Shallow embedding of `BlockState::remove_partition_node` (lines 436-458)
acting on a level `l` and its coupled chain.  When the removal empties the
block (`_vweight[v] > 0 && _wr[r] == _vweight[v]`), the block moves from the
candidate set to the empty set and, if a coupled state is installed, the
coupled state performs `remove_partition_node(r, hb[r])` followed by
`set_vertex_weight(r, 0)`; afterwards `_wr[r] -= _vweight[v]`. -/
def remove_partition_node_rec : PLevel → List PLevel → Nat → Nat → PLevel × List PLevel
  | l, [], v, r =>
      let vw := l.vweight.getD v 0
      let wrr := l.wr.getD r 0
      if 0 < vw ∧ wrr = vw then
        ({ l with candidate := l.candidate.erase r, empty := insert r l.empty,
                  wr := l.wr.set r (wrr - vw) }, [])
      else
        ({ l with wr := l.wr.set r (wrr - vw) }, [])
  | l, h :: t, v, r =>
      let vw := l.vweight.getD v 0
      let wrr := l.wr.getD r 0
      if 0 < vw ∧ wrr = vw then
        let p := remove_partition_node_rec h t r (h.b.getD r 0)
        ({ l with candidate := l.candidate.erase r, empty := insert r l.empty,
                  wr := l.wr.set r (wrr - vw) },
         set_vertex_weight p.1 r 0 :: p.2)
      else
        ({ l with wr := l.wr.set r (wrr - vw) }, h :: t)

/-- Shallow embedding of `BlockState::add_partition_node` (lines 460-481):
`_b[v] = r; _wr[r] += _vweight[v]`, and when the block becomes newly
occupied (`_vweight[v] > 0 && _wr[r] == _vweight[v]` after the increment)
the block moves from the empty set to the candidate set and the coupled
state performs `set_vertex_weight(r, 1)` followed by
`add_partition_node(r, hb[r])`. -/
def add_partition_node_rec : PLevel → List PLevel → Nat → Nat → PLevel × List PLevel
  | l, [], v, r =>
      let vw := l.vweight.getD v 0
      let wrr := l.wr.getD r 0 + vw
      if 0 < vw ∧ wrr = vw then
        ({ l with b := l.b.set v r, wr := l.wr.set r wrr,
                  empty := l.empty.erase r, candidate := insert r l.candidate }, [])
      else
        ({ l with b := l.b.set v r, wr := l.wr.set r wrr }, [])
  | l, h :: t, v, r =>
      let vw := l.vweight.getD v 0
      let wrr := l.wr.getD r 0 + vw
      if 0 < vw ∧ wrr = vw then
        let h' := set_vertex_weight h r 1
        let p := add_partition_node_rec h' t r (h'.b.getD r 0)
        ({ l with b := l.b.set v r, wr := l.wr.set r wrr,
                  empty := l.empty.erase r, candidate := insert r l.candidate },
         p.1 :: p.2)
      else
        ({ l with b := l.b.set v r, wr := l.wr.set r wrr }, h :: t)

/-- Shallow embedding of `BlockState::allow_move` (lines 278-289) over the
coupled chain: if a coupled state is installed with assignment `hb`, the
move is vetoed when `hb[r] != hb[nr]` and the coupled state disallows
`hb[r] -> hb[nr]`; otherwise the result is `bclabel[r] == bclabel[nr]`. -/
def allow_move_rec : PLevel → List PLevel → Nat → Nat → Bool
  | l, [], r, nr => l.bclabel.getD r 0 == l.bclabel.getD nr 0
  | l, h :: t, r, nr =>
      let rr := h.b.getD r 0
      let ss := h.b.getD nr 0
      (rr == ss || allow_move_rec h t rr ss)
        && (l.bclabel.getD r 0 == l.bclabel.getD nr 0)

/-- The `null_group` sentinel: `std::numeric_limits<size_t>::max()`. -/
def null_group : Nat := 2 ^ 64 - 1

/-- The full authoritative state of one `BlockState` (head level), together
with the chain of the partition-side records of its coupled states.  The
block-pair counters `mrs`/`brec`/`bdrec` are total maps from block pairs
(the block multigraph `bg` has an `(r,s)` edge iff `mrs (r,s) > 0`,
invariant I3); `stats` is the degree histogram of the partition statistics
(modelled from the spec, 4.3: `add_vertex`/`remove_vertex` "update degree
histograms when `vweight[v]` and the pair `(kin(v), kout(v))` change");
`mEntries`/`pEntries` model the reusable `_m_entries` scratch accumulator
and its `_p_entries` propagation list. -/
structure State where
  edges : List Edge
  part : PLevel
  chain : List PLevel
  deg_corr : Bool
  rec_on : Bool
  Bfield : List ℚ
  mrs : Nat × Nat → Int
  mrp : Nat → Int
  mrm : Nat → Int
  brec : Nat × Nat → ℚ
  bdrec : Nat × Nat → ℚ
  stats : Nat × Int × Int → Int
  mEntries : List ((Nat × Nat) × Int)
  pEntries : List ((Nat × Nat) × Int)

/-- Application of a sparse list of keyed additive deltas to a counter map,
the semantics of `apply_delta` over one counter (the body of `apply_delta`
lives in `graph_blockmodel_util.hh`, outside the given sources; modelled
from the spec, 4.2: `MEntries` is a sparse list of `(r,s) -> delta`
accumulations applied to the authoritative counters). -/
def apply_deltas {α β : Type} [DecidableEq α] [Add β]
    (f : α → β) (l : List (α × β)) : α → β :=
  l.foldl (fun g p => fun x => if x = p.1 then g x + p.2 else g x) f

/-- Weighted in-degree of `v` (`in_degreeS()(v, _g, _eweight)`). -/
def kinW (es : List Edge) (v : Nat) : Int :=
  ((es.filter fun e => e.tgt == v).map Edge.w).sum

/-- Weighted out-degree of `v` (`out_degreeS()(v, _g, _eweight)`). -/
def koutW (es : List Edge) (v : Nat) : Int :=
  ((es.filter fun e => e.src == v).map Edge.w).sum

/-- Whether edge `e` is incident to vertex `v`. -/
def edge_touches (v : Nat) (e : Edge) : Bool :=
  e.src == v || e.tgt == v

/-- The edges incident to `v`. -/
def inc_edges (es : List Edge) (v : Nat) : List Edge :=
  es.filter (edge_touches v)

/-- Block of endpoint `u` for a tentative placement of `v` in block `vb`:
the moved vertex's own endpoints resolve to `vb`, every other endpoint to
its current block (`move_entries` in `graph_blockmodel_util.hh` resolves
endpoints this way; modelled from the spec, 4.2). -/
def end_blk (bm : List Nat) (v vb u : Nat) : Nat :=
  if u = v then vb else bm.getD u 0

/-- The `(r,s) -> sgn*eweight` deltas that placing/removing `v` at block
`vb` induces on `mrs`. -/
def mrs_deltas (bm : List Nat) (v vb : Nat) (sgn : Int) (es : List Edge) :
    List ((Nat × Nat) × Int) :=
  es.map fun e => ((end_blk bm v vb e.src, end_blk bm v vb e.tgt), sgn * e.w)

/-- The corresponding row-sum deltas on `mrp` (source blocks). -/
def mrp_deltas (bm : List Nat) (v vb : Nat) (sgn : Int) (es : List Edge) :
    List (Nat × Int) :=
  es.map fun e => (end_blk bm v vb e.src, sgn * e.w)

/-- The corresponding column-sum deltas on `mrm` (target blocks). -/
def mrm_deltas (bm : List Nat) (v vb : Nat) (sgn : Int) (es : List Edge) :
    List (Nat × Int) :=
  es.map fun e => (end_blk bm v vb e.tgt, sgn * e.w)

/-- The covariate-sum deltas on `brec`. -/
def brec_deltas (bm : List Nat) (v vb : Nat) (sgn : Int) (es : List Edge) :
    List ((Nat × Nat) × ℚ) :=
  es.map fun e => ((end_blk bm v vb e.src, end_blk bm v vb e.tgt), (sgn : ℚ) * e.erec)

/-- The squared-deviation-sum deltas on `bdrec`. -/
def bdrec_deltas (bm : List Nat) (v vb : Nat) (sgn : Int) (es : List Edge) :
    List ((Nat × Nat) × ℚ) :=
  es.map fun e => ((end_blk bm v vb e.src, end_blk bm v vb e.tgt), (sgn : ℚ) * e.edrec)

/-- Effect of `apply_delta` for one side of a vertex move: add (`sgn = 1`)
or remove (`sgn = -1`) the contributions of all edges incident to `v`, with
`v` placed in block `vb`, to `mrs`, `mrp`, `mrm` and the covariate sums
(cf. the explicit per-edge updates in `remove_vertices`, lines 523-560, and
`add_vertices`, lines 610-653). -/
def apply_move_deltas (S : State) (v vb : Nat) (sgn : Int) : State :=
  let es := inc_edges S.edges v
  let bm := S.part.b
  { S with
    mrs := apply_deltas S.mrs (mrs_deltas bm v vb sgn es),
    mrp := apply_deltas S.mrp (mrp_deltas bm v vb sgn es),
    mrm := apply_deltas S.mrm (mrm_deltas bm v vb sgn es),
    brec := apply_deltas S.brec (brec_deltas bm v vb sgn es),
    bdrec := apply_deltas S.bdrec (bdrec_deltas bm v vb sgn es) }

/-- The sparse `(r,s) -> delta` insertions that `get_move_entries(v, r, nr)`
accumulates in `_m_entries`: remove the edges of `v` from the `r` side and
add them on the `nr` side, skipping a `null_group` side. -/
def side_deltas (es : List Edge) (bm : List Nat) (v blk : Nat) (sgn : Int) :
    List ((Nat × Nat) × Int) :=
  if blk = null_group then [] else mrs_deltas bm v blk sgn (inc_edges es v)

/-- The `_m_entries` content produced by `get_move_entries(v, r, nr)`
(lines 228-257), as the list of its sparse insertions. -/
def move_entries (S : State) (v r nr : Nat) : List ((Nat × Nat) × Int) :=
  side_deltas S.edges S.part.b v r (-1) ++ side_deltas S.edges S.part.b v nr 1

/-- State-level `remove_partition_node` (lines 436-458): the partition-side
update of `remove_partition_node_rec` plus the degree-histogram update of
`get_partition_stats(v).remove_vertex(...)` (modelled from the spec, 4.3). -/
def remove_partition_node (S : State) (v r : Nat) : State :=
  let p := remove_partition_node_rec S.part S.chain v r
  { S with part := p.1, chain := p.2,
           stats := apply_deltas S.stats
             [((r, kinW S.edges v, koutW S.edges v), -(S.part.vweight.getD v 0))] }

/-- State-level `add_partition_node` (lines 460-481), with the
degree-histogram update of `get_partition_stats(v).add_vertex(...)`. -/
def add_partition_node (S : State) (v r : Nat) : State :=
  let p := add_partition_node_rec S.part S.chain v r
  { S with part := p.1, chain := p.2,
           stats := apply_deltas S.stats
             [((r, kinW S.edges v, koutW S.edges v), S.part.vweight.getD v 0)] }

/-- Shallow embedding of `modify_vertex<false>(v, r)` (lines 260-276):
populate `_m_entries` with the move `r -> null_group`, apply the deltas,
then `remove_partition_node(v, r)`. -/
def modify_vertex_remove (S : State) (v r : Nat) : State :=
  let S1 := { S with mEntries := move_entries S v r null_group }
  remove_partition_node (apply_move_deltas S1 v r (-1)) v r

/-- Shallow embedding of `modify_vertex<true>(v, r)` (lines 260-276):
populate `_m_entries` with the move `null_group -> r`, apply the deltas,
then `add_partition_node(v, r)`. -/
def modify_vertex_add (S : State) (v r : Nat) : State :=
  let S1 := { S with mEntries := move_entries S v null_group r }
  add_partition_node (apply_move_deltas S1 v r 1) v r

/-- Shallow embedding of `remove_vertex(v)` (lines 494-498). -/
def remove_vertex (S : State) (v : Nat) : State :=
  modify_vertex_remove S v (S.part.b.getD v 0)

/-- Shallow embedding of `add_vertex(v, r)` (lines 575-578). -/
def add_vertex (S : State) (v r : Nat) : State :=
  modify_vertex_add S v r

/-- State-level `allow_move` (lines 278-289). -/
def allow_move (S : State) (r nr : Nat) : Bool :=
  allow_move_rec S.part S.chain r nr

/-- The error kind of the `ConstraintBarrier` failure (the
`ValueException("cannot move vertex across clabel barriers")` of line 317). -/
inductive MoveError where
  | constraintBarrier
deriving DecidableEq

/-- The mutating part of `move_vertex(v, r, nr)` once the move is allowed
(lines 319-322 and 291-301): populate `_m_entries`, apply its deltas, then
`remove_partition_node(v, r)` and `add_partition_node(v, nr)`. -/
def move_vertex_applied (S : State) (v r nr : Nat) : State :=
  let S1 := { S with mEntries := move_entries S v r nr }
  let S2 := apply_move_deltas (apply_move_deltas S1 v r (-1)) v nr 1
  add_partition_node (remove_partition_node S2 v r) v nr

/-- Shallow embedding of the public `move_vertex(v, nr)` (lines 311-329).
The C++ `throw` happens before any mutation, so the embedding returns the
untouched input state together with the error. -/
def move_vertex (S : State) (v nr : Nat) : State × Option MoveError :=
  let r := S.part.b.getD v 0
  if r = nr then (S, none)
  else if allow_move S r nr then (move_vertex_applied S v r nr, none)
  else (S, some MoveError.constraintBarrier)

/-- Accumulated value of the sparse entry list at key `k`. -/
def entry_val (l : List ((Nat × Nat) × Int)) (k : Nat × Nat) : Int :=
  ((l.filter fun p => p.1 == k).map Prod.snd).sum

/-- Enumeration of the accumulated nonzero `(r,s) -> delta` entries
(`entries_op` over `_m_entries`, skipping `delta == 0` as in lines
1250-1257). -/
def entries_op (l : List ((Nat × Nat) × Int)) : List ((Nat × Nat) × Int) :=
  (((l.map Prod.fst).dedup).map fun k => (k, entry_val l k)).filter
    fun p => !(p.2 == 0)

/-- The `entropy_args_t` option record (`graph_blockmodel_entropy.hh`
interface as used by `virtual_move` and `entropy`). -/
structure entropy_args where
  adjacency : Bool
  dense : Bool
  multigraph : Bool
  exact : Bool
  deg_entropy : Bool
  partition_dl : Bool
  degree_dl : Bool
  degree_dl_kind : Nat
  edges_dl : Bool
  recs : Bool
  Bfield : Bool
  beta_dl : ℚ

/-- Abstract evaluators for the numerical contributions that `virtual_move`
combines.  Modelled from the spec: the bodies of
`virtual_move_sparse`/`virtual_move_dense`, `get_delta_partition_dl`,
`get_delta_deg_dl`, `get_delta_edges_dl`, the `Bfield` prior,
`rec_entries_dS` and `propagate_entries_dS` evaluate real-valued
description-length terms (their leaf functions live in
`graph_blockmodel_util.hh`/`graph_blockmodel_entropy.hh`, outside the given
sources); only their values, not their state effects, enter the result, so
they are abstracted as pure functions. -/
structure Terms where
  adj_dense : State → Nat → Nat → Nat → Bool → ℚ
  adj_sparse_exact : State → Nat → Nat → Nat → ℚ
  adj_sparse : State → Nat → Nat → Nat → ℚ
  part_dl_delta : State → Nat → Nat → Nat → entropy_args → ℚ
  deg_dl_delta : State → Nat → Nat → Nat → Nat → ℚ
  edges_dl_delta : State → Nat → Nat → Nat → ℚ
  bfield_delta : State → Nat → Nat → Nat → ℚ
  rec_S : State → Nat → Nat → Nat → ℚ
  rec_dl : State → Nat → Nat → Nat → ℚ
  coupled_prop : State → Nat → Nat → Int → Int → ℚ

/-- Return value of `virtual_move`: a finite double or `+infinity`. -/
inductive DVal where
  | fin : ℚ → DVal
  | inf : DVal
deriving DecidableEq

/-- Shallow embedding of `BlockState::virtual_move` (lines 1162-1281).  The
control flow — the `r == nr || _vweight[v] == 0` early return, the
`allow_move` barrier returning `+infinity`, the population of `_m_entries`
and (under a coupled state) of `_p_entries`, and the assembly
`dS + ea.beta_dl * dS_dl` from the selected terms — is translated from the
source; the numerical leaf terms are the abstract `Terms`.  The embedding
is a total function: `virtual_move` never raises. -/
def virtual_move (T : Terms) (S : State) (v r nr : Nat) (ea : entropy_args) :
    DVal × State :=
  if r = nr ∨ S.part.vweight.getD v 0 = 0 then (DVal.fin 0, S)
  else if r ≠ null_group ∧ nr ≠ null_group ∧ allow_move S r nr = false then
    (DVal.inf, S)
  else
    let S1 := { S with mEntries := move_entries S v r nr }
    let vw := S1.part.vweight.getD v 0
    let dS : ℚ :=
      if ea.adjacency then
        if ea.dense then T.adj_dense S1 v r nr ea.multigraph
        else if ea.exact then T.adj_sparse_exact S1 v r nr
        else T.adj_sparse S1 v r nr
      else 0
    let dS_dl : ℚ :=
      T.part_dl_delta S1 v r nr ea
        + (if S1.deg_corr ∧ ea.degree_dl then T.deg_dl_delta S1 v r nr ea.degree_dl_kind else 0)
        + (if ea.edges_dl then T.edges_dl_delta S1 v r nr else 0)
        + (if S1.Bfield ≠ [] ∧ ea.Bfield then T.bfield_delta S1 v r nr else 0)
    let dS := dS + (if ea.recs ∧ S1.rec_on then T.rec_S S1 v r nr else 0)
    let dS_dl := dS_dl + (if ea.recs ∧ S1.rec_on then T.rec_dl S1 v r nr else 0)
    if S1.chain ≠ [] ∧ 0 < vw then
      let pe := entries_op S1.mEntries
      let S2 := { S1 with pEntries := pe }
      let dr : Int := if S2.part.wr.getD r 0 = vw ∧ 0 < vw then -1 else 0
      let dnr : Int := if S2.part.wr.getD nr 0 = 0 ∧ 0 < vw then 1 else 0
      let dS_dl :=
        if pe ≠ [] ∨ dr ≠ 0 ∨ dnr ≠ 0 then dS_dl + T.coupled_prop S2 r nr dr dnr
        else dS_dl
      (DVal.fin (dS + ea.beta_dl * dS_dl), S2)
    else
      (DVal.fin (dS + ea.beta_dl * dS_dl), S1)

/-- The coupled-state call sequence triggered by a lower-level move that
empties block `r`: `higher.remove_partition_node(r, higher.b[r])` followed
by `higher.set_vertex_weight(r, 0)` (lines 445-450). -/
def coupled_vacate (chain : List PLevel) (r : Nat) : List PLevel :=
  match chain with
  | [] => []
  | h :: t =>
      let p := remove_partition_node_rec h t r (h.b.getD r 0)
      set_vertex_weight p.1 r 0 :: p.2

/-- The coupled-state call sequence triggered by a lower-level move that
newly occupies block `r`: `higher.set_vertex_weight(r, 1)` followed by
`higher.add_partition_node(r, higher.b[r])` (lines 474-479). -/
def coupled_occupy (chain : List PLevel) (r : Nat) : List PLevel :=
  match chain with
  | [] => []
  | h :: t =>
      let h' := set_vertex_weight h r 1
      let p := add_partition_node_rec h' t r (h'.b.getD r 0)
      p.1 :: p.2

/-- Invariant I4 for a level with `B` blocks: every block id below `B` is in
the empty set iff its weight is zero and in the candidate set iff its weight
is nonzero (hence in exactly one of the two), and the two sets contain only
block ids below `B`. -/
def I4 (p : PLevel) (B : Nat) : Prop :=
  (∀ s, s < B →
    ((s ∈ p.empty ↔ p.wr.getD s 0 = 0) ∧ (s ∈ p.candidate ↔ p.wr.getD s 0 ≠ 0)))
  ∧ ∀ s, s ∈ p.empty ∨ s ∈ p.candidate → s < B

/-! ## Concrete instances used by witnesses and counterexamples -/

/-- Vacuous term evaluators (all contributions zero), used to instantiate
the abstract `Terms` at concrete inputs. -/
def T0 : Terms :=
  ⟨fun _ _ _ _ _ => 0, fun _ _ _ _ => 0, fun _ _ _ _ => 0, fun _ _ _ _ _ => 0,
   fun _ _ _ _ _ => 0, fun _ _ _ _ => 0, fun _ _ _ _ => 0, fun _ _ _ _ => 0,
   fun _ _ _ _ => 0, fun _ _ _ _ _ => 0⟩

/-- A concrete `entropy_args` selection (sparse exact adjacency plus
partition description length). -/
def ea0 : entropy_args :=
  ⟨true, false, false, true, false, true, false, 0, false, false, false, 1⟩

/-- Two vertices in two singleton blocks separated by a `bclabel` barrier;
one edge `0 -> 1` of weight 1. -/
def S_barrier : State where
  edges := [⟨0, 1, 1, 0, 0⟩]
  part := ⟨[0, 1], [1, 1], [1, 1], [0, 1], 2, ∅, {0, 1}⟩
  chain := []
  deg_corr := false
  rec_on := false
  Bfield := []
  mrs := fun p => if p = (0, 1) then 1 else 0
  mrp := fun r => if r = 0 then 1 else 0
  mrm := fun s => if s = 1 then 1 else 0
  brec := fun _ => 0
  bdrec := fun _ => 0
  stats := fun _ => 0
  mEntries := []
  pEntries := []

/-- Like `S_barrier`, but vertex 0 has zero weight (`vweight[0] = 0`). -/
def S_vw0 : State :=
  { S_barrier with part := ⟨[0, 1], [0, 1], [0, 1], [0, 1], 1, {0}, {1}⟩ }

/-- Two vertices in two blocks with no barrier (`bclabel = [0, 0]`), vertex
0 of zero weight but still carrying an edge `0 -> 1` of weight 1 (a state
satisfying I1, I2 and I4). -/
def S_c8 : State :=
  { S_barrier with part := ⟨[0, 1], [0, 1], [0, 1], [0, 0], 1, {0}, {1}⟩ }

/-- Two occupied singleton blocks, no barrier, one edge; moving vertex 0 to
block 1 empties block 0. -/
def S_move : State :=
  { S_barrier with part := ⟨[0, 1], [1, 1], [1, 1], [0, 0], 2, ∅, {0, 1}⟩ }

/-- A two-level instance: `S_move` coupled to a higher level whose two
vertices (the lower blocks) both sit in the higher block 0. -/
def S_two_level : State :=
  { S_move with chain := [⟨[0, 0], [1, 1], [2, 0], [0, 0], 2, {1}, {0}⟩] }

/-! ## Helper lemmas -/

theorem getD_set_ne {α : Type} (l : List α) {i j : Nat} (a d : α) (h : i ≠ j) :
    (l.set i a).getD j d = l.getD j d := by
  simp [List.getD, List.getElem?_set_ne h]

theorem getD_set_self {α : Type} (l : List α) {i : Nat} (a d : α) (h : i < l.length) :
    (l.set i a).getD i d = a := by
  simp [List.getD, List.getElem?_set_self, h]

theorem set_getD_self {α : Type} (l : List α) (i : Nat) (d : α) :
    l.set i (l.getD i d) = l := by
  induction l generalizing i with
  | nil => simp
  | cons a t ih =>
      cases i with
      | zero => simp [List.getD]
      | succ n =>
          have h : (a :: t).getD (n + 1) d = t.getD n d := by simp [List.getD]
          show a :: t.set n ((a :: t).getD (n + 1) d) = a :: t
          rw [h, ih]

theorem apply_deltas_apply {α β : Type} [DecidableEq α] [AddMonoid β]
    (l : List (α × β)) (f : α → β) (x : α) :
    apply_deltas f l x
      = f x + ((l.filter fun p => decide (p.1 = x)).map Prod.snd).sum := by
  induction l generalizing f with
  | nil => simp [apply_deltas]
  | cons p l ih =>
      simp only [apply_deltas, List.foldl_cons] at *
      rw [ih]
      by_cases h : p.1 = x
      · rw [if_pos h.symm]
        simp only [List.filter_cons, decide_eq_true_eq, if_pos h, List.map_cons,
          List.sum_cons, add_assoc]
      · rw [if_neg fun hx : x = p.1 => h hx.symm]
        simp only [List.filter_cons, decide_eq_true_eq, if_neg h]

theorem apply_deltas_zero {α β : Type} [DecidableEq α] [AddMonoid β]
    (f : α → β) (l : List (α × β)) (h : ∀ p ∈ l, p.2 = 0) :
    apply_deltas f l = f := by
  funext x
  rw [apply_deltas_apply]
  have : ((l.filter fun p => decide (p.1 = x)).map Prod.snd).sum = 0 := by
    apply List.sum_eq_zero
    intro y hy
    rcases List.mem_map.1 hy with ⟨p, hp, rfl⟩
    exact h p (List.mem_of_mem_filter hp)
  rw [this, add_zero]

theorem filter_map_negSnd {α β : Type} [DecidableEq α] [Neg β]
    (l : List (α × β)) (x : α) :
    ((l.map fun p => (p.1, -p.2)).filter fun p => decide (p.1 = x))
      = (l.filter fun p => decide (p.1 = x)).map fun p => (p.1, -p.2) := by
  induction l with
  | nil => simp
  | cons p l ih => by_cases h : p.1 = x <;> simp [List.filter_cons, h, ih]

theorem sum_map_negSnd {α β : Type} [AddCommGroup β] (l : List (α × β)) :
    ((l.map fun p => (p.1, -p.2)).map Prod.snd).sum = -(l.map Prod.snd).sum := by
  induction l with
  | nil => simp
  | cons p l ih =>
      simp only [List.map_cons, List.sum_cons]
      rw [ih]
      abel

theorem apply_deltas_cancel {α β : Type} [DecidableEq α] [AddCommGroup β]
    (f : α → β) (l : List (α × β)) :
    apply_deltas (apply_deltas f (l.map fun p => (p.1, -p.2))) l = f := by
  funext x
  rw [apply_deltas_apply, apply_deltas_apply, filter_map_negSnd, sum_map_negSnd]
  abel

theorem remove_rec_fst (l : PLevel) (chain : List PLevel) (v r : Nat) :
    (remove_partition_node_rec l chain v r).1 =
      if 0 < l.vweight.getD v 0 ∧ l.wr.getD r 0 = l.vweight.getD v 0 then
        { l with candidate := l.candidate.erase r, empty := insert r l.empty,
                 wr := l.wr.set r (l.wr.getD r 0 - l.vweight.getD v 0) }
      else { l with wr := l.wr.set r (l.wr.getD r 0 - l.vweight.getD v 0) } := by
  cases chain <;> simp only [remove_partition_node_rec] <;> split <;> rfl

theorem remove_rec_snd (l : PLevel) (chain : List PLevel) (v r : Nat) :
    (remove_partition_node_rec l chain v r).2 =
      if 0 < l.vweight.getD v 0 ∧ l.wr.getD r 0 = l.vweight.getD v 0 then
        coupled_vacate chain r
      else chain := by
  cases chain <;> simp only [remove_partition_node_rec, coupled_vacate] <;> split <;> rfl

theorem add_rec_fst (l : PLevel) (chain : List PLevel) (v r : Nat) :
    (add_partition_node_rec l chain v r).1 =
      if 0 < l.vweight.getD v 0 ∧
          l.wr.getD r 0 + l.vweight.getD v 0 = l.vweight.getD v 0 then
        { l with b := l.b.set v r,
                 wr := l.wr.set r (l.wr.getD r 0 + l.vweight.getD v 0),
                 empty := l.empty.erase r, candidate := insert r l.candidate }
      else
        { l with b := l.b.set v r,
                 wr := l.wr.set r (l.wr.getD r 0 + l.vweight.getD v 0) } := by
  cases chain <;> simp only [add_partition_node_rec] <;> split <;> rfl

theorem add_rec_snd (l : PLevel) (chain : List PLevel) (v r : Nat) :
    (add_partition_node_rec l chain v r).2 =
      if 0 < l.vweight.getD v 0 ∧
          l.wr.getD r 0 + l.vweight.getD v 0 = l.vweight.getD v 0 then
        coupled_occupy chain r
      else chain := by
  cases chain <;> simp only [add_partition_node_rec, coupled_occupy] <;> split <;> rfl

theorem allow_move_rec_refl (l : PLevel) (chain : List PLevel) (r : Nat) :
    allow_move_rec l chain r r = true := by
  cases chain <;> simp [allow_move_rec]

theorem q_rec_zero_left (k : Nat) : q_rec 0 k = 1 := by
  simp [q_rec]

theorem q_rec_succ_zero (n : Nat) : q_rec (n + 1) 0 = 0 := by
  simp [q_rec]

theorem q_rec_succ_stable (n k : Nat) (h : n ≤ k) : q_rec n (k + 1) = q_rec n k := by
  cases n with
  | zero => simp [q_rec]
  | succ m =>
      rw [q_rec]
      have hh : ¬ (k + 1 ≤ m + 1) := by omega
      simp [hh]

theorem q_rec_clamp (n k : Nat) (h : n ≤ k) : q_rec n k = q_rec n n := by
  induction k, h using Nat.le_induction with
  | base => rfl
  | succ k hk ih => rw [q_rec_succ_stable n k hk, ih]

/-! ## Claim theorems -/

/-- C10: whenever `N == 0`, `k == 0` or `k >= N`, the log-binomial helpers
`lbinom`, `lbinom_fast` and `lbinom_careful` all return exactly 0 (in
particular for `k > N`, where the binomial coefficient itself is zero, they
return 0 rather than negative infinity), for every realisation of the
transcendental helper functions. -/
theorem claim_C10_lbinom_guard (lg lgf : Int → ℝ) (lp lo : ℝ → ℝ) (N k : Int)
    (h : N = 0 ∨ k = 0 ∨ k ≥ N) :
    lbinom lg N k = 0 ∧ lbinom_fast lgf N k = 0 ∧ lbinom_careful lg lp lo N k = 0 := by
  refine ⟨?_, ?_, ?_⟩ <;> simp only [lbinom, lbinom_fast, lbinom_careful, if_pos h]

/-- Witness for C10 at `N = 3`, `k = 5` (the `k > N` corner). -/
theorem claim_C10_witness :
    ((3 : Int) = 0 ∨ (5 : Int) = 0 ∨ (5 : Int) ≥ 3) ∧
      lbinom (fun _ => 0) 3 5 = 0 ∧ lbinom_fast (fun _ => 0) 3 5 = 0 ∧
        lbinom_careful (fun _ => 0) (fun _ => 0) (fun _ => 0) 3 5 = 0 := by
  have h : (3 : Int) = 0 ∨ (5 : Int) = 0 ∨ (5 : Int) ≥ 3 := by norm_num
  exact ⟨h, claim_C10_lbinom_guard (fun _ => 0) (fun _ => 0) (fun _ => 0) (fun _ => 0) 3 5 h⟩

/-- C9: with the q-cache initialised up to bound `m`, `log_q(n, k)` returns
the exact-formula value `log q(n, k)` for every `n` at or beyond the bound
(and, being a pure function, leaves the cache unchanged), and returns the
cached `__q_cache[n][k]` value for `0 <= n` below the bound. -/
theorem claim_C9_log_q_cache (m : Nat) (n k : Int) :
    ((m : Int) ≤ n → log_q (init_q_cache m) n k = Real.log (q_rec n.toNat k.toNat)) ∧
    (0 ≤ n → n < (m : Int) →
      log_q (init_q_cache m) n k = (init_q_cache m).table n.toNat k.toNat) := by
  constructor
  · intro hm
    simp only [log_q, init_q_cache, log_q_approx]
    by_cases h0 : n ≤ 0 ∨ k < 1
    · rw [if_pos h0]
      rcases h0 with h0 | h0
      · have hn : n = 0 := le_antisymm h0 (le_trans (Int.ofNat_nonneg m) hm)
        subst hn
        simp [q_rec_zero_left]
      · have hk : k.toNat = 0 := by omega
        rw [hk]
        rcases Nat.eq_zero_or_pos n.toNat with hn | hn
        · rw [hn]; simp [q_rec_zero_left]
        · obtain ⟨j, hj⟩ : ∃ j, n.toNat = j + 1 := ⟨n.toNat - 1, by omega⟩
          rw [hj]
          simp [q_rec_succ_zero, Real.log_zero]
    · rw [if_neg h0]
      push_neg at h0
      obtain ⟨hn, hk⟩ := h0
      have hbr : ¬ (n.toNat < m) := by omega
      simp only [hbr, if_false]
      by_cases hkn : k > n
      · simp only [if_pos hkn]
        rw [q_rec_clamp n.toNat n.toNat le_rfl, ← q_rec_clamp n.toNat k.toNat (by omega)]
      · simp only [if_neg hkn]
  · intro hn0 hnm
    simp only [log_q, init_q_cache]
    by_cases h0 : n ≤ 0 ∨ k < 1
    · rw [if_pos h0]
      rcases h0 with h0 | h0
      · have hn : n = 0 := le_antisymm h0 hn0
        subst hn
        simp [q_rec_zero_left]
      · have hk : k.toNat = 0 := by omega
        rw [hk]
        rcases Nat.eq_zero_or_pos n.toNat with hn | hn
        · rw [hn]; simp [q_rec_zero_left]
        · obtain ⟨j, hj⟩ : ∃ j, n.toNat = j + 1 := ⟨n.toNat - 1, by omega⟩
          rw [hj]
          simp [q_rec_succ_zero, Real.log_zero]
    · rw [if_neg h0]
      push_neg at h0
      obtain ⟨hn, hk⟩ := h0
      have hbr : n.toNat < m := by omega
      simp only [hbr, if_true]
      by_cases hkn : k > n
      · simp only [if_pos hkn]
        rw [q_rec_clamp n.toNat n.toNat le_rfl, ← q_rec_clamp n.toNat k.toNat (by omega)]
      · simp only [if_neg hkn]

/-- Witness for C9: bound 2, with `n = 5` hitting the exact-formula fallback
and `n = 1` hitting the cache. -/
theorem claim_C9_witness :
    (((2 : Nat) : Int) ≤ 5 ∧
      log_q (init_q_cache 2) 5 3 = Real.log (q_rec (5 : Int).toNat (3 : Int).toNat)) ∧
    (0 ≤ (1 : Int) ∧ (1 : Int) < ((2 : Nat) : Int) ∧
      log_q (init_q_cache 2) 1 1 = (init_q_cache 2).table (1 : Int).toNat (1 : Int).toNat) := by
  refine ⟨⟨by norm_num, (claim_C9_log_q_cache 2 5 3).1 (by norm_num)⟩,
          ⟨by norm_num, by norm_num, (claim_C9_log_q_cache 2 1 1).2 (by norm_num) (by norm_num)⟩⟩

/-- C2: `allow_move(r, nr)` succeeds iff `bclabel[r] == bclabel[nr]` and,
recursively, the coupled state allows the move `hb[r] -> hb[nr]` (or the
coupled labels are equal); and the public `move_vertex(v, nr)` with
`r = b[v]` and `r != nr` fails with the `ConstraintBarrier` error exactly
when `allow_move(r, nr)` fails, leaving the state unchanged in that case. -/
theorem claim_C2_allow_move (S : State) (v r nr : Nat)
    (hb : S.part.b.getD v 0 = r) (hne : r ≠ nr) :
    (allow_move S r nr = true ↔
      S.part.bclabel.getD r 0 = S.part.bclabel.getD nr 0 ∧
        (match S.chain with
         | [] => True
         | h :: t =>
             h.b.getD r 0 = h.b.getD nr 0 ∨
               allow_move_rec h t (h.b.getD r 0) (h.b.getD nr 0) = true)) ∧
    ((move_vertex S v nr).2 = some MoveError.constraintBarrier ↔
      allow_move S r nr = false) ∧
    (allow_move S r nr = false → (move_vertex S v nr).1 = S) := by
  refine ⟨?_, ?_, ?_⟩
  · unfold allow_move
    cases S.chain with
    | nil => simp [allow_move_rec]
    | cons h t => simp [allow_move_rec]; tauto
  · simp only [move_vertex, hb, if_neg hne]
    by_cases ha : allow_move S r nr <;> simp [ha]
  · intro ha
    simp only [move_vertex, hb, if_neg hne, ha]
    simp

/-- Witness for C2 at the barrier state `S_barrier` with `v = 0`, `r = 0`,
`nr = 1`. -/
theorem claim_C2_witness :
    S_barrier.part.b.getD 0 0 = 0 ∧ (0 : Nat) ≠ 1 ∧
      ((move_vertex S_barrier 0 1).2 = some MoveError.constraintBarrier ↔
        allow_move S_barrier 0 1 = false) :=
  ⟨by decide, by decide, (claim_C2_allow_move S_barrier 0 0 1 (by decide) (by decide)).2.1⟩

/-- C3 (amended): `virtual_move` is a total function (it never raises); it
returns 0 when `r == nr` or `vweight[v] == 0`; and it returns `+infinity`
when `r` and `nr` are both non-null, `vweight[v] != 0`, and
`allow_move(r, nr)` fails.  (The original claim omitted the
`vweight[v] != 0` proviso of the `+infinity` clause: the `r == nr` /
zero-weight early return takes priority over the barrier check.) -/
theorem claim_C3_virtual_move_guards (T : Terms) (S : State) (v r nr : Nat)
    (ea : entropy_args) :
    ((r = nr ∨ S.part.vweight.getD v 0 = 0) →
      (virtual_move T S v r nr ea).1 = DVal.fin 0) ∧
    (S.part.vweight.getD v 0 ≠ 0 → r ≠ null_group → nr ≠ null_group →
      allow_move S r nr = false → (virtual_move T S v r nr ea).1 = DVal.inf) := by
  constructor
  · intro h
    simp only [virtual_move, if_pos h]
  · intro hv hr hnr hall
    have hrnr : r ≠ nr := by
      intro he
      subst he
      rw [allow_move, allow_move_rec_refl] at hall
      cases hall
    have h1 : ¬ (r = nr ∨ S.part.vweight.getD v 0 = 0) := by tauto
    have h2 : r ≠ null_group ∧ nr ≠ null_group ∧ allow_move S r nr = false :=
      ⟨hr, hnr, hall⟩
    simp only [virtual_move, if_neg h1, if_pos h2]

/-- Witness for C3 (amended) at `S_barrier`: vertex 0 has weight 1 and the
move `0 -> 1` crosses the barrier, so `virtual_move` returns `+infinity`;
and the zero clause at `r = nr`. -/
theorem claim_C3_witness :
    (((0 : Nat) = 0 ∨ S_barrier.part.vweight.getD 0 0 = 0) ∧
      (virtual_move T0 S_barrier 0 0 0 ea0).1 = DVal.fin 0) ∧
    (S_barrier.part.vweight.getD 0 0 ≠ 0 ∧ (0 : Nat) ≠ null_group ∧
      (1 : Nat) ≠ null_group ∧ allow_move S_barrier 0 1 = false ∧
      (virtual_move T0 S_barrier 0 0 1 ea0).1 = DVal.inf) :=
  ⟨⟨Or.inl rfl, (claim_C3_virtual_move_guards T0 S_barrier 0 0 0 ea0).1 (Or.inl rfl)⟩,
   by decide, by decide, by decide, by decide,
   (claim_C3_virtual_move_guards T0 S_barrier 0 0 1 ea0).2
     (by decide) (by decide) (by decide) (by decide)⟩

/-- C3 counterexample: at `S_vw0` the move `0 -> 1` has both blocks
non-null and `allow_move` failing, yet `virtual_move` returns 0 (not
`+infinity`) because vertex 0 has zero weight — the claim's `+infinity`
clause is violated as stated. -/
theorem claim_C3_counterexample :
    (0 : Nat) ≠ null_group ∧ (1 : Nat) ≠ null_group ∧
      allow_move S_vw0 0 1 = false ∧ S_vw0.part.b.getD 0 0 = 0 ∧
      (virtual_move T0 S_vw0 0 0 1 ea0).1 = DVal.fin 0 ∧
      DVal.fin 0 ≠ DVal.inf := by
  refine ⟨by decide, by decide, by decide, by decide, by decide, by decide⟩

/-- C4: `virtual_move` is pure with respect to every authoritative counter:
the assignment and partition-side record `part` (hence `b`, `wr`,
`vweight`, `bclabel`, `empty_groups`, `candidate_groups`), the coupled
chain, the graph, the edge counters `mrs`/`mrp`/`mrm`, the covariate sums
`brec`/`bdrec`, and the partition statistics are unchanged by the call (only
the `_m_entries`/`_p_entries` scratch buffers are written). -/
theorem claim_C4_virtual_move_pure (T : Terms) (S : State) (v r nr : Nat)
    (ea : entropy_args) :
    (virtual_move T S v r nr ea).2.part = S.part ∧
    (virtual_move T S v r nr ea).2.chain = S.chain ∧
    (virtual_move T S v r nr ea).2.edges = S.edges ∧
    (virtual_move T S v r nr ea).2.mrs = S.mrs ∧
    (virtual_move T S v r nr ea).2.mrp = S.mrp ∧
    (virtual_move T S v r nr ea).2.mrm = S.mrm ∧
    (virtual_move T S v r nr ea).2.brec = S.brec ∧
    (virtual_move T S v r nr ea).2.bdrec = S.bdrec ∧
    (virtual_move T S v r nr ea).2.stats = S.stats := by
  unfold virtual_move
  split
  · simp
  · split
    · simp
    · dsimp only
      split <;> simp

theorem remove_rec_fst_b (l : PLevel) (chain : List PLevel) (v r : Nat) :
    ((remove_partition_node_rec l chain v r).1).b = l.b := by
  rw [remove_rec_fst]; split <;> rfl

theorem remove_rec_fst_vweight (l : PLevel) (chain : List PLevel) (v r : Nat) :
    ((remove_partition_node_rec l chain v r).1).vweight = l.vweight := by
  rw [remove_rec_fst]; split <;> rfl

theorem remove_rec_fst_bclabel (l : PLevel) (chain : List PLevel) (v r : Nat) :
    ((remove_partition_node_rec l chain v r).1).bclabel = l.bclabel := by
  rw [remove_rec_fst]; split <;> rfl

theorem remove_rec_fst_N (l : PLevel) (chain : List PLevel) (v r : Nat) :
    ((remove_partition_node_rec l chain v r).1).N = l.N := by
  rw [remove_rec_fst]; split <;> rfl

theorem remove_rec_fst_wr (l : PLevel) (chain : List PLevel) (v r : Nat) :
    ((remove_partition_node_rec l chain v r).1).wr
      = l.wr.set r (l.wr.getD r 0 - l.vweight.getD v 0) := by
  rw [remove_rec_fst]; split <;> rfl

theorem add_rec_fst_b (l : PLevel) (chain : List PLevel) (v r : Nat) :
    ((add_partition_node_rec l chain v r).1).b = l.b.set v r := by
  rw [add_rec_fst]; split <;> rfl

theorem add_rec_fst_vweight (l : PLevel) (chain : List PLevel) (v r : Nat) :
    ((add_partition_node_rec l chain v r).1).vweight = l.vweight := by
  rw [add_rec_fst]; split <;> rfl

theorem add_rec_fst_bclabel (l : PLevel) (chain : List PLevel) (v r : Nat) :
    ((add_partition_node_rec l chain v r).1).bclabel = l.bclabel := by
  rw [add_rec_fst]; split <;> rfl

theorem add_rec_fst_N (l : PLevel) (chain : List PLevel) (v r : Nat) :
    ((add_partition_node_rec l chain v r).1).N = l.N := by
  rw [add_rec_fst]; split <;> rfl

theorem add_rec_fst_wr (l : PLevel) (chain : List PLevel) (v r : Nat) :
    ((add_partition_node_rec l chain v r).1).wr
      = l.wr.set r (l.wr.getD r 0 + l.vweight.getD v 0) := by
  rw [add_rec_fst]; split <;> rfl

theorem mrs_deltas_neg (bm : List Nat) (v vb : Nat) (es : List Edge) :
    mrs_deltas bm v vb (-1) es
      = (mrs_deltas bm v vb 1 es).map fun p => (p.1, -p.2) := by
  simp [mrs_deltas, List.map_map, Function.comp]

theorem mrp_deltas_neg (bm : List Nat) (v vb : Nat) (es : List Edge) :
    mrp_deltas bm v vb (-1) es
      = (mrp_deltas bm v vb 1 es).map fun p => (p.1, -p.2) := by
  simp [mrp_deltas, List.map_map, Function.comp]

theorem mrm_deltas_neg (bm : List Nat) (v vb : Nat) (es : List Edge) :
    mrm_deltas bm v vb (-1) es
      = (mrm_deltas bm v vb 1 es).map fun p => (p.1, -p.2) := by
  simp [mrm_deltas, List.map_map, Function.comp]

theorem brec_deltas_neg (bm : List Nat) (v vb : Nat) (es : List Edge) :
    brec_deltas bm v vb (-1) es
      = (brec_deltas bm v vb 1 es).map fun p => (p.1, -p.2) := by
  simp [brec_deltas, List.map_map, Function.comp]

theorem bdrec_deltas_neg (bm : List Nat) (v vb : Nat) (es : List Edge) :
    bdrec_deltas bm v vb (-1) es
      = (bdrec_deltas bm v vb 1 es).map fun p => (p.1, -p.2) := by
  simp [bdrec_deltas, List.map_map, Function.comp]

/-- C8 (amended): `remove_vertex(v)` on a vertex with `vweight[v] == 0` whose
incident edges all carry zero weight and zero covariates (as in any state
where a zero-weight vertex has no surviving edge mass) leaves every counter,
group-membership set and property of the state unchanged; only the
`_m_entries` scratch buffer is rewritten.  (The original claim required no
condition on the incident edges; the counterexample shows `modify_vertex`
still applies their `mrs` deltas.) -/
theorem claim_C8_remove_vertex_noop (S : State) (v : Nat)
    (hvw : S.part.vweight.getD v 0 = 0)
    (hz : ∀ e ∈ S.edges, edge_touches v e = true →
      e.w = 0 ∧ e.erec = 0 ∧ e.edrec = 0) :
    (remove_vertex S v).part = S.part ∧
    (remove_vertex S v).chain = S.chain ∧
    (remove_vertex S v).edges = S.edges ∧
    (remove_vertex S v).mrs = S.mrs ∧
    (remove_vertex S v).mrp = S.mrp ∧
    (remove_vertex S v).mrm = S.mrm ∧
    (remove_vertex S v).brec = S.brec ∧
    (remove_vertex S v).bdrec = S.bdrec ∧
    (remove_vertex S v).stats = S.stats := by
  have hmem : ∀ e ∈ inc_edges S.edges v, e.w = 0 ∧ e.erec = 0 ∧ e.edrec = 0 := by
    intro e he
    have := List.mem_filter.1 he
    exact hz e this.1 this.2
  have htrig : ¬ (0 < S.part.vweight.getD v 0 ∧
      S.part.wr.getD (S.part.b.getD v 0) 0 = S.part.vweight.getD v 0) := by
    rw [hvw]; simp
  refine ⟨?_, ?_, rfl, ?_, ?_, ?_, ?_, ?_, ?_⟩
  · show ((remove_partition_node_rec S.part S.chain v (S.part.b.getD v 0)).1) = S.part
    rw [remove_rec_fst, if_neg htrig, hvw, sub_zero, set_getD_self]
  · show ((remove_partition_node_rec S.part S.chain v (S.part.b.getD v 0)).2) = S.chain
    rw [remove_rec_snd, if_neg htrig]
  · show apply_deltas S.mrs
      (mrs_deltas S.part.b v (S.part.b.getD v 0) (-1) (inc_edges S.edges v)) = S.mrs
    apply apply_deltas_zero
    intro p hp
    rcases List.mem_map.1 hp with ⟨e, he, rfl⟩
    simp [(hmem e he).1]
  · show apply_deltas S.mrp
      (mrp_deltas S.part.b v (S.part.b.getD v 0) (-1) (inc_edges S.edges v)) = S.mrp
    apply apply_deltas_zero
    intro p hp
    rcases List.mem_map.1 hp with ⟨e, he, rfl⟩
    simp [(hmem e he).1]
  · show apply_deltas S.mrm
      (mrm_deltas S.part.b v (S.part.b.getD v 0) (-1) (inc_edges S.edges v)) = S.mrm
    apply apply_deltas_zero
    intro p hp
    rcases List.mem_map.1 hp with ⟨e, he, rfl⟩
    simp [(hmem e he).1]
  · show apply_deltas S.brec
      (brec_deltas S.part.b v (S.part.b.getD v 0) (-1) (inc_edges S.edges v)) = S.brec
    apply apply_deltas_zero
    intro p hp
    rcases List.mem_map.1 hp with ⟨e, he, rfl⟩
    simp [(hmem e he).2.1]
  · show apply_deltas S.bdrec
      (bdrec_deltas S.part.b v (S.part.b.getD v 0) (-1) (inc_edges S.edges v)) = S.bdrec
    apply apply_deltas_zero
    intro p hp
    rcases List.mem_map.1 hp with ⟨e, he, rfl⟩
    simp [(hmem e he).2.2]
  · show apply_deltas S.stats
      [((S.part.b.getD v 0, kinW S.edges v, koutW S.edges v),
        -(S.part.vweight.getD v 0))] = S.stats
    apply apply_deltas_zero
    intro p hp
    rcases List.mem_singleton.1 hp with rfl
    show -(S.part.vweight.getD v 0) = 0
    rw [hvw, neg_zero]

/-- Witness for C8 (amended): a zero-weight vertex 0 with one incident edge
of zero weight. -/
theorem claim_C8_witness :
    ({ S_c8 with edges := [⟨0, 1, 0, 0, 0⟩] } : State).part.vweight.getD 0 0 = 0 ∧
      (remove_vertex { S_c8 with edges := [⟨0, 1, 0, 0, 0⟩] } 0).mrs
        = ({ S_c8 with edges := [⟨0, 1, 0, 0, 0⟩] } : State).mrs :=
  ⟨by decide,
   (claim_C8_remove_vertex_noop { S_c8 with edges := [⟨0, 1, 0, 0, 0⟩] } 0
     (by decide) (by decide)).2.2.2.1⟩

/-- C8 counterexample: at `S_c8` vertex 0 has zero weight but carries an
edge `0 -> 1` of weight 1; `remove_vertex(0)` changes `mrs(0, 1)` from 1 to
0, so it is not a no-op as the claim states. -/
theorem claim_C8_counterexample :
    S_c8.part.vweight.getD 0 0 = 0 ∧
      (remove_vertex S_c8 0).mrs (0, 1) ≠ S_c8.mrs (0, 1) := by
  exact ⟨by decide, by decide⟩

theorem remove_rec_fst_empty (l : PLevel) (chain : List PLevel) (v r : Nat) :
    ((remove_partition_node_rec l chain v r).1).empty =
      if 0 < l.vweight.getD v 0 ∧ l.wr.getD r 0 = l.vweight.getD v 0 then
        insert r l.empty
      else l.empty := by
  rw [remove_rec_fst]
  by_cases h : 0 < l.vweight.getD v 0 ∧ l.wr.getD r 0 = l.vweight.getD v 0
  · rw [if_pos h, if_pos h]
  · rw [if_neg h, if_neg h]

theorem remove_rec_fst_candidate (l : PLevel) (chain : List PLevel) (v r : Nat) :
    ((remove_partition_node_rec l chain v r).1).candidate =
      if 0 < l.vweight.getD v 0 ∧ l.wr.getD r 0 = l.vweight.getD v 0 then
        l.candidate.erase r
      else l.candidate := by
  rw [remove_rec_fst]
  by_cases h : 0 < l.vweight.getD v 0 ∧ l.wr.getD r 0 = l.vweight.getD v 0
  · rw [if_pos h, if_pos h]
  · rw [if_neg h, if_neg h]

theorem add_rec_fst_empty (l : PLevel) (chain : List PLevel) (v r : Nat) :
    ((add_partition_node_rec l chain v r).1).empty =
      if 0 < l.vweight.getD v 0 ∧
          l.wr.getD r 0 + l.vweight.getD v 0 = l.vweight.getD v 0 then
        l.empty.erase r
      else l.empty := by
  rw [add_rec_fst]
  by_cases h : 0 < l.vweight.getD v 0 ∧
      l.wr.getD r 0 + l.vweight.getD v 0 = l.vweight.getD v 0
  · rw [if_pos h, if_pos h]
  · rw [if_neg h, if_neg h]

theorem add_rec_fst_candidate (l : PLevel) (chain : List PLevel) (v r : Nat) :
    ((add_partition_node_rec l chain v r).1).candidate =
      if 0 < l.vweight.getD v 0 ∧
          l.wr.getD r 0 + l.vweight.getD v 0 = l.vweight.getD v 0 then
        insert r l.candidate
      else l.candidate := by
  rw [add_rec_fst]
  by_cases h : 0 < l.vweight.getD v 0 ∧
      l.wr.getD r 0 + l.vweight.getD v 0 = l.vweight.getD v 0
  · rw [if_pos h, if_pos h]
  · rw [if_neg h, if_neg h]

/-- C7: for `r = b[v]`, the sequence `remove_vertex(v); add_vertex(v, r)`
restores every counter of the state to exactly its prior value — `mrs`,
`mrp`, `mrm`, the block record (`b`, `wr`, `vweight`, `bclabel`, `N`,
`empty_groups`, `candidate_groups`), the covariate sums `brec`/`bdrec` and
the degree counters.  The hypotheses ask that `wr` is sized to the blocks
and that, when `v` is the last weight in its block, that block is listed as
a candidate and not as empty (invariant I4). -/
theorem claim_C7_round_trip (S : State) (v : Nat)
    (hrlen : S.part.b.getD v 0 < S.part.wr.length)
    (hset : 0 < S.part.vweight.getD v 0 →
      S.part.wr.getD (S.part.b.getD v 0) 0 = S.part.vweight.getD v 0 →
      S.part.b.getD v 0 ∈ S.part.candidate ∧ S.part.b.getD v 0 ∉ S.part.empty) :
    (add_vertex (remove_vertex S v) v (S.part.b.getD v 0)).part = S.part ∧
    (add_vertex (remove_vertex S v) v (S.part.b.getD v 0)).edges = S.edges ∧
    (add_vertex (remove_vertex S v) v (S.part.b.getD v 0)).mrs = S.mrs ∧
    (add_vertex (remove_vertex S v) v (S.part.b.getD v 0)).mrp = S.mrp ∧
    (add_vertex (remove_vertex S v) v (S.part.b.getD v 0)).mrm = S.mrm ∧
    (add_vertex (remove_vertex S v) v (S.part.b.getD v 0)).brec = S.brec ∧
    (add_vertex (remove_vertex S v) v (S.part.b.getD v 0)).bdrec = S.bdrec ∧
    (add_vertex (remove_vertex S v) v (S.part.b.getD v 0)).stats = S.stats := by
  refine ⟨?_, rfl, ?_, ?_, ?_, ?_, ?_, ?_⟩
  · show (add_partition_node_rec
        (remove_partition_node_rec S.part S.chain v (S.part.b.getD v 0)).1
        (remove_partition_node_rec S.part S.chain v (S.part.b.getD v 0)).2
        v (S.part.b.getD v 0)).1 = S.part
    have htrigA : (0 < ((remove_partition_node_rec S.part S.chain v
          (S.part.b.getD v 0)).1).vweight.getD v 0 ∧
        ((remove_partition_node_rec S.part S.chain v (S.part.b.getD v 0)).1).wr.getD
            (S.part.b.getD v 0) 0
          + ((remove_partition_node_rec S.part S.chain v
              (S.part.b.getD v 0)).1).vweight.getD v 0
          = ((remove_partition_node_rec S.part S.chain v
              (S.part.b.getD v 0)).1).vweight.getD v 0) ↔
        (0 < S.part.vweight.getD v 0 ∧
          S.part.wr.getD (S.part.b.getD v 0) 0 = S.part.vweight.getD v 0) := by
      rw [remove_rec_fst_vweight, remove_rec_fst_wr,
        getD_set_self S.part.wr _ 0 hrlen]
      constructor <;> (rintro ⟨a, b⟩; exact ⟨a, by omega⟩)
    refine PLevel.ext ?_ ?_ ?_ ?_ ?_ ?_ ?_
    · rw [add_rec_fst_b, remove_rec_fst_b, set_getD_self]
    · rw [add_rec_fst_vweight, remove_rec_fst_vweight]
    · rw [add_rec_fst_wr, remove_rec_fst_wr, remove_rec_fst_vweight,
        getD_set_self S.part.wr _ 0 hrlen, List.set_set, sub_add_cancel,
        set_getD_self]
    · rw [add_rec_fst_bclabel, remove_rec_fst_bclabel]
    · rw [add_rec_fst_N, remove_rec_fst_N]
    · rw [add_rec_fst_empty, remove_rec_fst_empty]
      by_cases htr : 0 < S.part.vweight.getD v 0 ∧
          S.part.wr.getD (S.part.b.getD v 0) 0 = S.part.vweight.getD v 0
      · rw [if_pos (htrigA.2 htr), if_pos htr,
          Finset.erase_insert ((hset htr.1 htr.2).2)]
      · rw [if_neg (fun h => htr (htrigA.1 h)), if_neg htr]
    · rw [add_rec_fst_candidate, remove_rec_fst_candidate]
      by_cases htr : 0 < S.part.vweight.getD v 0 ∧
          S.part.wr.getD (S.part.b.getD v 0) 0 = S.part.vweight.getD v 0
      · rw [if_pos (htrigA.2 htr), if_pos htr,
          Finset.insert_erase ((hset htr.1 htr.2).1)]
      · rw [if_neg (fun h => htr (htrigA.1 h)), if_neg htr]
  · show apply_deltas
        (apply_deltas S.mrs (mrs_deltas S.part.b v (S.part.b.getD v 0) (-1)
          (inc_edges S.edges v)))
        (mrs_deltas ((remove_partition_node_rec S.part S.chain v
            (S.part.b.getD v 0)).1).b v (S.part.b.getD v 0) 1
          (inc_edges S.edges v)) = S.mrs
    rw [remove_rec_fst_b, mrs_deltas_neg]
    exact apply_deltas_cancel S.mrs _
  · show apply_deltas
        (apply_deltas S.mrp (mrp_deltas S.part.b v (S.part.b.getD v 0) (-1)
          (inc_edges S.edges v)))
        (mrp_deltas ((remove_partition_node_rec S.part S.chain v
            (S.part.b.getD v 0)).1).b v (S.part.b.getD v 0) 1
          (inc_edges S.edges v)) = S.mrp
    rw [remove_rec_fst_b, mrp_deltas_neg]
    exact apply_deltas_cancel S.mrp _
  · show apply_deltas
        (apply_deltas S.mrm (mrm_deltas S.part.b v (S.part.b.getD v 0) (-1)
          (inc_edges S.edges v)))
        (mrm_deltas ((remove_partition_node_rec S.part S.chain v
            (S.part.b.getD v 0)).1).b v (S.part.b.getD v 0) 1
          (inc_edges S.edges v)) = S.mrm
    rw [remove_rec_fst_b, mrm_deltas_neg]
    exact apply_deltas_cancel S.mrm _
  · show apply_deltas
        (apply_deltas S.brec (brec_deltas S.part.b v (S.part.b.getD v 0) (-1)
          (inc_edges S.edges v)))
        (brec_deltas ((remove_partition_node_rec S.part S.chain v
            (S.part.b.getD v 0)).1).b v (S.part.b.getD v 0) 1
          (inc_edges S.edges v)) = S.brec
    rw [remove_rec_fst_b, brec_deltas_neg]
    exact apply_deltas_cancel S.brec _
  · show apply_deltas
        (apply_deltas S.bdrec (bdrec_deltas S.part.b v (S.part.b.getD v 0) (-1)
          (inc_edges S.edges v)))
        (bdrec_deltas ((remove_partition_node_rec S.part S.chain v
            (S.part.b.getD v 0)).1).b v (S.part.b.getD v 0) 1
          (inc_edges S.edges v)) = S.bdrec
    rw [remove_rec_fst_b, bdrec_deltas_neg]
    exact apply_deltas_cancel S.bdrec _
  · show apply_deltas
        (apply_deltas S.stats
          [((S.part.b.getD v 0, kinW S.edges v, koutW S.edges v),
            -(S.part.vweight.getD v 0))])
        [((S.part.b.getD v 0, kinW S.edges v, koutW S.edges v),
          ((remove_partition_node_rec S.part S.chain v
            (S.part.b.getD v 0)).1).vweight.getD v 0)] = S.stats
    rw [remove_rec_fst_vweight]
    exact apply_deltas_cancel S.stats
      [((S.part.b.getD v 0, kinW S.edges v, koutW S.edges v),
        S.part.vweight.getD v 0)]

/-- Witness for C7 at `S_move` with `v = 0` (the removal empties block 0 and
the re-insertion re-occupies it). -/
theorem claim_C7_witness :
    S_move.part.b.getD 0 0 < S_move.part.wr.length ∧
      (add_vertex (remove_vertex S_move 0) 0 (S_move.part.b.getD 0 0)).part
        = S_move.part :=
  ⟨by decide, (claim_C7_round_trip S_move 0 (by decide) (fun _ _ => by decide)).1⟩

/-- C6: with a coupled state installed, a successful `move_vertex(v, nr)`
whose source block `r = b[v]` is emptied (its weight `wr[r]` drops to zero,
i.e. `0 < vweight[v]` and `wr[r] = vweight[v]`) triggers exactly
`higher.remove_partition_node(r, higher.b[r])` followed by
`higher.set_vertex_weight(r, 0)` on the coupled chain (`coupled_vacate`),
and a move that newly occupies `nr` (`0 < vweight[v]` and `wr[nr] = 0`)
triggers exactly `higher.set_vertex_weight(nr, 1)` followed by
`higher.add_partition_node(nr, higher.b[nr])` (`coupled_occupy`); a move
that does neither leaves the coupled chain unchanged. -/
theorem claim_C6_coupling (S : State) (v nr : Nat)
    (hne : S.part.b.getD v 0 ≠ nr)
    (hall : allow_move S (S.part.b.getD v 0) nr = true) :
    (move_vertex S v nr).1.chain =
      (if 0 < S.part.vweight.getD v 0 ∧ S.part.wr.getD nr 0 = 0 then
        coupled_occupy
          (if 0 < S.part.vweight.getD v 0 ∧
              S.part.wr.getD (S.part.b.getD v 0) 0 = S.part.vweight.getD v 0 then
            coupled_vacate S.chain (S.part.b.getD v 0)
          else S.chain) nr
      else
        (if 0 < S.part.vweight.getD v 0 ∧
            S.part.wr.getD (S.part.b.getD v 0) 0 = S.part.vweight.getD v 0 then
          coupled_vacate S.chain (S.part.b.getD v 0)
        else S.chain)) := by
  have h1 : (move_vertex S v nr).1 = move_vertex_applied S v (S.part.b.getD v 0) nr := by
    simp only [move_vertex]
    rw [if_neg hne, hall]
    simp
  rw [h1]
  show (add_partition_node_rec
      (remove_partition_node_rec S.part S.chain v (S.part.b.getD v 0)).1
      (remove_partition_node_rec S.part S.chain v (S.part.b.getD v 0)).2
      v nr).2 = _
  rw [add_rec_snd, remove_rec_fst_vweight, remove_rec_fst_wr, remove_rec_snd,
    getD_set_ne S.part.wr _ 0 hne]
  by_cases hocc : 0 < S.part.vweight.getD v 0 ∧ S.part.wr.getD nr 0 = 0
  · rw [if_pos ⟨hocc.1, by omega⟩, if_pos hocc]
  · rw [if_neg (fun h => hocc ⟨h.1, by omega⟩), if_neg hocc]

/-- Witness for C6 at the two-level state `S_two_level`: moving vertex 0 to
block 1 empties block 0, so the coupled chain is transformed by
`coupled_vacate` (and not by `coupled_occupy`, block 1 being occupied). -/
theorem claim_C6_witness :
    S_two_level.part.b.getD 0 0 ≠ 1 ∧
      allow_move S_two_level (S_two_level.part.b.getD 0 0) 1 = true ∧
      (move_vertex S_two_level 0 1).1.chain =
        (if 0 < S_two_level.part.vweight.getD 0 0 ∧
            S_two_level.part.wr.getD 1 0 = 0 then
          coupled_occupy
            (if 0 < S_two_level.part.vweight.getD 0 0 ∧
                S_two_level.part.wr.getD (S_two_level.part.b.getD 0 0) 0
                  = S_two_level.part.vweight.getD 0 0 then
              coupled_vacate S_two_level.chain (S_two_level.part.b.getD 0 0)
            else S_two_level.chain) 1
        else
          (if 0 < S_two_level.part.vweight.getD 0 0 ∧
              S_two_level.part.wr.getD (S_two_level.part.b.getD 0 0) 0
                = S_two_level.part.vweight.getD 0 0 then
            coupled_vacate S_two_level.chain (S_two_level.part.b.getD 0 0)
          else S_two_level.chain)) :=
  ⟨by decide, by decide, claim_C6_coupling S_two_level 0 1 (by decide) (by decide)⟩

theorem I4_move_core (p : PLevel) (c : List PLevel) (v r nr B : Nat)
    (hI4 : I4 p B) (hlen : B ≤ p.wr.length)
    (hwrnn : ∀ s, 0 ≤ p.wr.getD s 0)
    (hvw0 : 0 ≤ p.vweight.getD v 0)
    (hvwr : p.vweight.getD v 0 ≤ p.wr.getD r 0)
    (hr : r < B) (hnr : nr < B) (hrnr : r ≠ nr) :
    I4 (add_partition_node_rec (remove_partition_node_rec p c v r).1
        (remove_partition_node_rec p c v r).2 v nr).1 B ∧
    (add_partition_node_rec (remove_partition_node_rec p c v r).1
        (remove_partition_node_rec p c v r).2 v nr).1.wr.getD r 0
      = p.wr.getD r 0 - p.vweight.getD v 0 := by
  obtain ⟨hI4a, hI4b⟩ := hI4
  have hvrec := remove_rec_fst_vweight p c v r
  have hwrec := remove_rec_fst_wr p c v r
  have hwr2 : (add_partition_node_rec (remove_partition_node_rec p c v r).1
      (remove_partition_node_rec p c v r).2 v nr).1.wr
      = (p.wr.set r (p.wr.getD r 0 - p.vweight.getD v 0)).set nr
          (p.wr.getD nr 0 + p.vweight.getD v 0) := by
    rw [add_rec_fst_wr, hwrec, hvrec, getD_set_ne p.wr _ 0 hrnr]
  have hemp2 : (add_partition_node_rec (remove_partition_node_rec p c v r).1
      (remove_partition_node_rec p c v r).2 v nr).1.empty
      = if 0 < p.vweight.getD v 0 ∧ p.wr.getD nr 0 = 0 then
          (if 0 < p.vweight.getD v 0 ∧ p.wr.getD r 0 = p.vweight.getD v 0 then
            insert r p.empty else p.empty).erase nr
        else
          (if 0 < p.vweight.getD v 0 ∧ p.wr.getD r 0 = p.vweight.getD v 0 then
            insert r p.empty else p.empty) := by
    rw [add_rec_fst_empty, remove_rec_fst_empty, hvrec, hwrec,
      getD_set_ne p.wr _ 0 hrnr]
    by_cases hocc : 0 < p.vweight.getD v 0 ∧ p.wr.getD nr 0 = 0
    · rw [if_pos ⟨hocc.1, by omega⟩, if_pos hocc]
    · rw [if_neg (fun h => hocc ⟨h.1, by omega⟩), if_neg hocc]
  have hcand2 : (add_partition_node_rec (remove_partition_node_rec p c v r).1
      (remove_partition_node_rec p c v r).2 v nr).1.candidate
      = if 0 < p.vweight.getD v 0 ∧ p.wr.getD nr 0 = 0 then
          insert nr
            (if 0 < p.vweight.getD v 0 ∧ p.wr.getD r 0 = p.vweight.getD v 0 then
              p.candidate.erase r else p.candidate)
        else
          (if 0 < p.vweight.getD v 0 ∧ p.wr.getD r 0 = p.vweight.getD v 0 then
            p.candidate.erase r else p.candidate) := by
    rw [add_rec_fst_candidate, remove_rec_fst_candidate, hvrec, hwrec,
      getD_set_ne p.wr _ 0 hrnr]
    by_cases hocc : 0 < p.vweight.getD v 0 ∧ p.wr.getD nr 0 = 0
    · rw [if_pos ⟨hocc.1, by omega⟩, if_pos hocc]
    · rw [if_neg (fun h => hocc ⟨h.1, by omega⟩), if_neg hocc]
  have hempmem : ∀ s, (s ∈ (add_partition_node_rec
      (remove_partition_node_rec p c v r).1
      (remove_partition_node_rec p c v r).2 v nr).1.empty) ↔
      (((0 < p.vweight.getD v 0 ∧ p.wr.getD nr 0 = 0) → s ≠ nr) ∧
        (((0 < p.vweight.getD v 0 ∧ p.wr.getD r 0 = p.vweight.getD v 0) ∧ s = r)
          ∨ s ∈ p.empty)) := by
    intro s
    rw [hemp2]
    by_cases hocc : 0 < p.vweight.getD v 0 ∧ p.wr.getD nr 0 = 0 <;>
      by_cases hvac : 0 < p.vweight.getD v 0 ∧ p.wr.getD r 0 = p.vweight.getD v 0
    · rw [if_pos hocc, if_pos hvac]
      simp only [Finset.mem_erase, Finset.mem_insert]
      tauto
    · rw [if_pos hocc, if_neg hvac]
      simp only [Finset.mem_erase]
      tauto
    · rw [if_neg hocc, if_pos hvac]
      simp only [Finset.mem_insert]
      tauto
    · rw [if_neg hocc, if_neg hvac]
      tauto
  have hcandmem : ∀ s, (s ∈ (add_partition_node_rec
      (remove_partition_node_rec p c v r).1
      (remove_partition_node_rec p c v r).2 v nr).1.candidate) ↔
      (((0 < p.vweight.getD v 0 ∧ p.wr.getD nr 0 = 0) ∧ s = nr) ∨
        (((0 < p.vweight.getD v 0 ∧ p.wr.getD r 0 = p.vweight.getD v 0) → s ≠ r)
          ∧ s ∈ p.candidate)) := by
    intro s
    rw [hcand2]
    by_cases hocc : 0 < p.vweight.getD v 0 ∧ p.wr.getD nr 0 = 0 <;>
      by_cases hvac : 0 < p.vweight.getD v 0 ∧ p.wr.getD r 0 = p.vweight.getD v 0
    · rw [if_pos hocc, if_pos hvac]
      simp only [Finset.mem_insert, Finset.mem_erase]
      tauto
    · rw [if_pos hocc, if_neg hvac]
      simp only [Finset.mem_insert]
      tauto
    · rw [if_neg hocc, if_pos hvac]
      simp only [Finset.mem_erase]
      tauto
    · rw [if_neg hocc, if_neg hvac]
      tauto
  have hval_nr : ((p.wr.set r (p.wr.getD r 0 - p.vweight.getD v 0)).set nr
      (p.wr.getD nr 0 + p.vweight.getD v 0)).getD nr 0
      = p.wr.getD nr 0 + p.vweight.getD v 0 := by
    refine getD_set_self _ _ _ ?_
    rw [List.length_set]
    omega
  have hval_r : ((p.wr.set r (p.wr.getD r 0 - p.vweight.getD v 0)).set nr
      (p.wr.getD nr 0 + p.vweight.getD v 0)).getD r 0
      = p.wr.getD r 0 - p.vweight.getD v 0 := by
    rw [getD_set_ne _ _ 0 (fun h => hrnr h.symm)]
    exact getD_set_self _ _ _ (by omega)
  have hval_other : ∀ s, s ≠ r → s ≠ nr →
      ((p.wr.set r (p.wr.getD r 0 - p.vweight.getD v 0)).set nr
        (p.wr.getD nr 0 + p.vweight.getD v 0)).getD s 0 = p.wr.getD s 0 := by
    intro s hsr hsnr
    rw [getD_set_ne _ _ 0 (fun h => hsnr h.symm),
      getD_set_ne _ _ 0 (fun h => hsr h.symm)]
  refine ⟨⟨?_, ?_⟩, ?_⟩
  · intro s hs
    have hws := hwrnn s
    have hwn := hwrnn nr
    rw [hempmem s, hcandmem s, hwr2]
    obtain ⟨hes, hcs⟩ := hI4a s hs
    by_cases hsnr : s = nr
    · subst hsnr
      rw [hval_nr, hes, hcs]
      omega
    · by_cases hsr : s = r
      · subst hsr
        rw [hval_r, hes, hcs]
        omega
      · rw [hval_other s hsr hsnr, hes, hcs]
        omega
  · intro s hs'
    rcases hs' with h | h
    · rw [hempmem s] at h
      rcases h.2 with ⟨_, rfl⟩ | h2
      · exact hr
      · exact hI4b s (Or.inl h2)
    · rw [hcandmem s] at h
      rcases h with ⟨_, rfl⟩ | ⟨_, h2⟩
      · exact hnr
      · exact hI4b s (Or.inr h2)
  · rw [hwr2]
    exact hval_r

/-- C5: invariant I4 — `empty_groups` and `candidate_groups` partition the
block ids, with `r` in `empty_groups` iff `wr[r] = 0` — is preserved by
`move_vertex(v, nr)` (including refused and identity moves), and after a
successful move that empties `r = b[v]` the block `r` lies in
`empty_groups` and not in `candidate_groups`.  The hypotheses are the
standing consistency facts: I4 before the move, `wr` sized to the blocks
and non-negative, `vweight[v]` non-negative and bounded by the weight of
its own block, and `b[v]`, `nr` being valid block ids. -/
theorem claim_C5_I4_empty_gating (S : State) (v nr B : Nat)
    (hI4 : I4 S.part B)
    (hlen : B ≤ S.part.wr.length)
    (hwrnn : ∀ s, 0 ≤ S.part.wr.getD s 0)
    (hvw0 : 0 ≤ S.part.vweight.getD v 0)
    (hvwr : S.part.vweight.getD v 0 ≤ S.part.wr.getD (S.part.b.getD v 0) 0)
    (hr : S.part.b.getD v 0 < B) (hnr : nr < B) :
    I4 (move_vertex S v nr).1.part B ∧
    (S.part.b.getD v 0 ≠ nr →
      allow_move S (S.part.b.getD v 0) nr = true →
      0 < S.part.vweight.getD v 0 →
      S.part.wr.getD (S.part.b.getD v 0) 0 = S.part.vweight.getD v 0 →
      S.part.b.getD v 0 ∈ (move_vertex S v nr).1.part.empty ∧
      S.part.b.getD v 0 ∉ (move_vertex S v nr).1.part.candidate) := by
  by_cases hrnr : S.part.b.getD v 0 = nr
  · have hmv : (move_vertex S v nr).1 = S := by
      simp only [move_vertex]
      rw [if_pos hrnr]
    rw [hmv]
    exact ⟨hI4, fun hne _ _ _ => absurd hrnr hne⟩
  · by_cases hall : allow_move S (S.part.b.getD v 0) nr = true
    · have h1 : (move_vertex S v nr).1
          = move_vertex_applied S v (S.part.b.getD v 0) nr := by
        simp only [move_vertex]
        rw [if_neg hrnr, hall]
        simp
      have hpp : (move_vertex_applied S v (S.part.b.getD v 0) nr).part
          = (add_partition_node_rec
              (remove_partition_node_rec S.part S.chain v (S.part.b.getD v 0)).1
              (remove_partition_node_rec S.part S.chain v (S.part.b.getD v 0)).2
              v nr).1 := rfl
      obtain ⟨hI4', hwr'⟩ := I4_move_core S.part S.chain v (S.part.b.getD v 0)
        nr B hI4 hlen hwrnn hvw0 hvwr hr hnr hrnr
      rw [h1, hpp]
      refine ⟨hI4', ?_⟩
      intro _ _ hpos hempties
      have hz : (add_partition_node_rec
          (remove_partition_node_rec S.part S.chain v (S.part.b.getD v 0)).1
          (remove_partition_node_rec S.part S.chain v (S.part.b.getD v 0)).2
          v nr).1.wr.getD (S.part.b.getD v 0) 0 = 0 := by
        rw [hwr', hempties]
        omega
      have hmem := hI4'.1 (S.part.b.getD v 0) hr
      exact ⟨hmem.1.mpr hz, fun hc => (hmem.2.mp hc) hz⟩
    · have hfalse : allow_move S (S.part.b.getD v 0) nr = false := by
        revert hall
        cases allow_move S (S.part.b.getD v 0) nr <;> simp
      have hmv : (move_vertex S v nr).1 = S := by
        simp only [move_vertex]
        rw [if_neg hrnr, hfalse]
        simp
      rw [hmv]
      exact ⟨hI4, fun _ hall' _ _ => absurd hall' hall⟩

/-- Witness for C5 at `S_move` with `v = 0`, `nr = 1`, `B = 2`: the move
empties block 0, which ends up in `empty_groups` and out of
`candidate_groups`, and I4 holds afterwards. -/
theorem claim_C5_witness :
    I4 S_move.part 2 ∧ I4 (move_vertex S_move 0 1).1.part 2 ∧
      0 ∈ (move_vertex S_move 0 1).1.part.empty ∧
      0 ∉ (move_vertex S_move 0 1).1.part.candidate := by
  have hI4 : I4 S_move.part 2 := by
    constructor
    · decide
    · intro s h
      rcases h with h | h
      · simp [S_move, S_barrier] at h
      · have hs : s = 0 ∨ s = 1 := by simpa [S_move, S_barrier] using h
        omega
  have hw : ∀ s, 0 ≤ S_move.part.wr.getD s 0 := by
    intro s
    rcases s with _ | _ | n
    · decide
    · decide
    · simp [S_move, S_barrier, List.getD]
  have H := claim_C5_I4_empty_gating S_move 0 1 2 hI4 (by decide) hw
    (by decide) (by decide) (by decide) (by decide)
  have HG := H.2 (by decide) (by decide) (by decide) (by decide)
  exact ⟨hI4, H.1, HG.1, HG.2⟩

end SBM
